import Mathlib

/-
  Verification development for the double-entry ledger system.

  Shallow embedding of the posting engine: the Joi request schema
  (src/utils/validation.ts), the money codec (src/utils/money.ts), the
  journal service (src/services/JournalService.ts), the account service
  (src/services/AccountService.ts), the repositories
  (JournalRepository.ts, AccountRepository.ts, IdempotencyRepository.ts,
  BalanceRepository.ts) and the balance service (BalanceService.ts).

  Modelling conventions:
  - JS numbers carrying decimal currency amounts are modelled as rationals;
    all claims exercise only amounts on the cent grid, where JS floating
    point is exact.  Joi number precision(2) conversion is the identity on
    such amounts and is not modelled separately.
  - Calendar dates are modelled as integers (day numbers); the schema
    future-date check `new Date(value) > endOfToday` becomes `date > today`.
  - uuids and timestamps are modelled by a fresh-id counter in the state.
  - SHA-256 is a deterministic function of the canonicalized string, so the
    stored request hash is modelled by that string itself: equal strings
    are exactly the inputs on which the real hashes are equal (all claims
    settled here depend only on this determinism, never on injectivity).
-/

namespace Ledger

inductive AccountType where
  | Asset | Liability | Equity | Revenue | Expense
deriving DecidableEq, Repr

/-- Account row (src/models/types.ts). -/
structure Account where
  id : Nat
  code : String
  name : String
  type : AccountType
deriving DecidableEq, Repr

/-- CreateJournalLineRequest: raw request line, debit and credit optional. -/
structure LineReq where
  account_code : String
  debit : Option ℚ
  credit : Option ℚ
deriving DecidableEq, Repr

/-- CreateJournalEntryRequest: raw request body. -/
structure EntryReq where
  date : Int
  narration : String
  lines : List LineReq
  reverses_entry_id : Option Nat
deriving DecidableEq, Repr

/-- A request line after Joi validation: absent debit and credit have been
filled with the schema default 0. -/
structure VLine where
  account_code : String
  debit : ℚ
  credit : ℚ
deriving DecidableEq, Repr

/-- A request body after Joi validation. -/
structure VEntry where
  date : Int
  narration : String
  lines : List VLine
  reverses_entry_id : Option Nat
deriving DecidableEq, Repr

/-- Money.toCents: `Math.round(amount * 100)`; JS Math.round is
floor(x + 1/2) (half toward positive infinity).  Written on the
numerator/denominator representation so that it evaluates by kernel
reduction (the rational field operations are irreducible); the lemma
toCents_eq_floor below proves this equal to ⌊amount * 100 + 1/2⌋. -/
def toCents (amount : ℚ) : Int :=
  (200 * amount.num + (amount.den : Int)) / (2 * (amount.den : Int))

/-- Money.fromCents: exact division by 100, as the canonical fraction
cents/100 (the lemma fromCents_eq_div below gives the division form). -/
def fromCents (cents : Int) : ℚ := mkRat cents 100

/-- Rendering of the JS number c/100 by Number.prototype.toString, for the
values that appear in validation messages (at most two decimals): integers
print without a point, trailing zeros of the fraction are dropped. -/
def centsOver100ToString (c : Int) : String :=
  let sign := if c < 0 then "-" else ""
  let n := c.natAbs
  let ip := n / 100
  let fr := n % 100
  if fr = 0 then sign ++ toString ip
  else if fr % 10 = 0 then sign ++ toString ip ++ "." ++ toString (fr / 10)
  else sign ++ toString ip ++ "." ++ (if fr < 10 then "0" else "") ++ toString fr

/-- String.prototype.trim over the character list (the built-in
String.trim is not kernel-reducible). -/
def jsTrim (s : String) : String :=
  ⟨((s.toList.dropWhile Char.isWhitespace).reverse.dropWhile Char.isWhitespace).reverse⟩

def isAlphanumStr (s : String) : Bool :=
  s.toList.all (fun c => c.isAlpha || c.isDigit)

/-- Joi journalLineSchema, per-key checks of one line item, in schema order
(account_code alphanum/min/max, debit min 0, credit min 0).  Messages are
the Joi defaults (no custom messages are declared for these keys). -/
def lineItemErrors (l : LineReq) : List String :=
  (if isAlphanumStr l.account_code then [] else
    ["\"account_code\" must only contain alpha-numeric characters"]) ++
  (if l.account_code.length < 1 then
    ["\"account_code\" is not allowed to be empty"] else []) ++
  (if l.account_code.length > 20 then
    ["\"account_code\" length must be less than or equal to 20 characters long"] else []) ++
  (if l.debit.getD 0 < 0 then
    ["\"debit\" must be greater than or equal to 0"] else []) ++
  (if l.credit.getD 0 < 0 then
    ["\"credit\" must be greater than or equal to 0"] else [])

/-- Joi defaults applied to a line: `debit: ... .default(0)`, likewise credit. -/
def vLine (l : LineReq) : VLine :=
  ⟨l.account_code, l.debit.getD 0, l.credit.getD 0⟩

/-- journalLineSchema `.custom` debit-credit validation: helpers.error
returns at the first violation found. -/
def lineCustomErrors (l : VLine) : List String :=
  if l.debit > 0 ∧ l.credit > 0 then
    ["A line cannot have both debit and credit amounts"]
  else if l.debit = 0 ∧ l.credit = 0 then
    ["A line must have either a debit or credit amount"]
  else []

/-- journalEntrySchema `date` key: the custom future-date check (the entry
date compared against the end of the current day). -/
def dateErrors (today : Int) (d : Int) : List String :=
  if today < d then ["Entry date cannot be in the future"] else []

/-- journalEntrySchema `narration` key: min 1 / max 500 with custom messages. -/
def narrationErrors (n : String) : List String :=
  (if n.length < 1 then ["Narration must be at least 1 character long"] else []) ++
  (if n.length > 500 then ["Narration must not exceed 500 characters"] else [])

def sumDebitCents (v : VEntry) : Int := (v.lines.map (fun l => toCents l.debit)).sum

def sumCreditCents (v : VEntry) : Int := (v.lines.map (fun l => toCents l.credit)).sum

/-- journalEntrySchema `lines` key `.custom` double-entry validation:
totals in cents via `Math.round((line.debit || 0) * 100)`; helpers.error
returns at the first violation, so the zero-amount check is unreached when
the entry is unbalanced.  The unbalanced message interpolates the totals
divided by 100, rendered as JS numbers. -/
def linesCustomErrors (ls : List VLine) : List String :=
  let totalDebits := (ls.map (fun l => toCents l.debit)).sum
  let totalCredits := (ls.map (fun l => toCents l.credit)).sum
  if totalDebits ≠ totalCredits then
    ["Total debits (" ++ centsOver100ToString totalDebits ++
      ") must equal total credits (" ++ centsOver100ToString totalCredits ++ ")"]
  else if totalDebits = 0 then ["Total amount must be greater than zero"]
  else []

/-- journalEntrySchema with `abortEarly: false`: every violated rule
contributes its message, keys in schema order (date, narration, lines),
and within `lines` the item-level checks in item order, then `min(2)`,
then the custom double-entry check. -/
def schemaErrors (today : Int) (r : EntryReq) : List String :=
  dateErrors today r.date ++
  narrationErrors r.narration ++
  r.lines.flatMap (fun l => lineItemErrors l ++ lineCustomErrors (vLine l)) ++
  (if r.lines.length < 2 then
    ["At least 2 lines are required for a journal entry"] else []) ++
  linesCustomErrors (r.lines.map vLine)

/-- The validated value produced by Joi on success (defaults applied). -/
def normalizeReq (r : EntryReq) : VEntry :=
  ⟨r.date, r.narration, r.lines.map vLine, r.reverses_entry_id⟩

/-- validateInput(journalEntrySchema, data): on failure the messages of
all violated rules are joined with a comma and a space. -/
def validateInputJournal (today : Int) (r : EntryReq) : Except String VEntry :=
  let errs := schemaErrors today r
  if errs.isEmpty then .ok (normalizeReq r)
  else .error (String.intercalate (", ") errs)

/-- IdempotencyRepository.hashRequest: the canonicalized request string
`JSON.stringify(requestBody, Object.keys(requestBody).sort())`.  The array
replacer is an allowlist of the TOP-LEVEL key names applied at every
nesting level, so each element of `lines` serializes as an empty object
(its keys account_code, debit, credit are not in the allowlist), while
array elements themselves are always kept.  Keys of the root object are
emitted in the sorted order date, lines, narration, reverses_entry_id.
The subsequent SHA-256 digest is a deterministic function of this string
and is modelled by the string itself. -/
def hashRequest (v : VEntry) : String :=
  let linesJson := "[" ++ String.intercalate (",") (v.lines.map (fun _ => "\x7b\x7d")) ++ "]"
  let base := "\x7b\"date\":\"" ++ toString v.date ++ "\",\"lines\":" ++ linesJson ++
    ",\"narration\":\"" ++ v.narration ++ "\""
  match v.reverses_entry_id with
  | none => base ++ "\x7d"
  | some rid => base ++ ",\"reverses_entry_id\":\"" ++ toString rid ++ "\"\x7d"

/-- Journal line row as persisted (src/models/types.ts). -/
structure JournalLine where
  id : Nat
  entry_id : Nat
  account_id : Nat
  account_code : String
  debit_cents : Int
  credit_cents : Int
  line_index : Nat
deriving DecidableEq, Repr

/-- Journal entry row as persisted, with its lines. -/
structure JournalEntry where
  id : Nat
  date : Int
  narration : String
  posted_at : Nat
  reverses_entry_id : Option Nat
  lines : List JournalLine
deriving DecidableEq, Repr, Inhabited

/-- Row of the idempotency_keys table. -/
structure IdempotencyRecord where
  key : String
  request_hash : String
  entry_id : Nat
deriving DecidableEq, Repr

/-- The relational store: the three tables, the fresh-id counter standing
for the uuid generator and the posted_at clock, and the current date used
by the schema future-date check. -/
structure LedgerState where
  accounts : List Account
  entries : List JournalEntry
  idem : List IdempotencyRecord
  nextId : Nat
  today : Int
deriving DecidableEq, Repr

/-- Typed failures (src/models/types.ts); `internal` stands for a plain
JS Error escaping the typed hierarchy. -/
inductive LedgerErr where
  | validation (msg : String)
  | notFound (msg : String)
  | conflict (msg : String)
  | internal (msg : String)
deriving DecidableEq, Repr

deriving instance DecidableEq for Except

/-- AccountRepository.findByCode: `SELECT * FROM accounts WHERE code = $1`,
first row or null. -/
def findByCode (st : LedgerState) (code : String) : Option Account :=
  st.accounts.find? (fun a => a.code = code)

/-- JournalRepository.findById: the entry row plus its lines ordered by
line_index (lines are persisted in index order, so the stored order is
already the query order). -/
def journalFindById (st : LedgerState) (i : Nat) : Option JournalEntry :=
  st.entries.find? (fun e => e.id = i)

/-- JS `new Set(accountCodes)` spread back to an array: deduplication
keeping first occurrences in insertion order. -/
def jsSetDedup (codes : List String) : List String :=
  codes.foldl (fun acc c => if c ∈ acc then acc else acc ++ [c]) []

/-- AccountRepository.getAccountsByCodesWithValidation: `SELECT ... WHERE
code IN (...)` (rows in table order), then every requested code must be
among the found ones, else a combined NotFound naming all missing codes. -/
def getAccountsByCodesWithValidation (st : LedgerState) (codes : List String) :
    Except LedgerErr (List Account) :=
  let result := st.accounts.filter (fun a => codes.contains a.code)
  let foundCodes := result.map (fun a => a.code)
  let missingCodes := codes.filter (fun c => ¬ foundCodes.contains c)
  if missingCodes.isEmpty then .ok result
  else .error (.notFound ("Accounts not found: " ++ String.intercalate (", ") missingCodes))

/-- AccountService.validateAccountsExist: non-empty input, dedup, reject
blank codes (first offender), then resolve with combined-missing check. -/
def validateAccountsExist (st : LedgerState) (accountCodes : List String) :
    Except LedgerErr (List Account) :=
  if accountCodes.isEmpty then
    .error (.validation ("At least one account code is required"))
  else
    let uniqueCodes := jsSetDedup accountCodes
    match uniqueCodes.find? (fun c => (jsTrim c).length = 0) with
    | some c => .error (.validation ("Invalid account code: '" ++ c ++ "'"))
    | none => getAccountsByCodesWithValidation st uniqueCodes

/-- IdempotencyRepository.validateRequest result record. -/
structure IdemCheckResult where
  isValid : Bool
  entryId : Option Nat
  message : Option String
deriving DecidableEq, Repr

/-- IdempotencyRepository.findByKey. -/
def idemFindByKey (st : LedgerState) (key : String) : Option IdempotencyRecord :=
  st.idem.find? (fun r => r.key = key)

/-- IdempotencyRepository.validateRequest: missing record is a fresh
request; matching hash is a safe replay carrying the original entry id;
differing hash is invalid with the conflict message. -/
def idemValidateRequest (st : LedgerState) (key : String) (v : VEntry) : IdemCheckResult :=
  match idemFindByKey st key with
  | none => ⟨true, none, none⟩
  | some r =>
    if r.request_hash = hashRequest v then ⟨true, some r.entry_id, none⟩
    else ⟨false, none,
      some ("Idempotency key '" ++ key ++ "' already used with different request data")⟩

/-- IdempotencyService.validateRequest: empty-key guard then repository. -/
def svcValidateRequest (st : LedgerState) (key : String) (v : VEntry) :
    Except LedgerErr IdemCheckResult :=
  if (jsTrim key).length = 0 then
    .error (.internal ("Idempotency key is required and must be a non-empty string"))
  else .ok (idemValidateRequest st key v)

/-- IdempotencyRepository.create: one INSERT; a unique violation on the
key column surfaces as ConflictError.  This runs in its own transaction,
separate from the journal write. -/
def idemRepoCreate (st : LedgerState) (key : String) (v : VEntry) (entryId : Nat) :
    Except LedgerErr IdempotencyRecord × LedgerState :=
  let requestHash := hashRequest v
  if st.idem.any (fun r => r.key = key) then
    (.error (.conflict ("Idempotency key '" ++ key ++ "' already exists")), st)
  else
    let r : IdempotencyRecord := ⟨key, requestHash, entryId⟩
    (.ok r, { st with idem := st.idem ++ [r] })

/-- IdempotencyService.recordRequest: empty-key and empty-entry-id guards
then repository create (entry ids are Nat here, so only the key guard has
content). -/
def svcRecordRequest (st : LedgerState) (key : String) (v : VEntry) (entryId : Nat) :
    Except LedgerErr IdempotencyRecord × LedgerState :=
  if (jsTrim key).length = 0 then
    (.error (.internal ("Idempotency key is required and must be a non-empty string")), st)
  else idemRepoCreate st key v entryId

/-- JournalRepository.create: ONE database transaction inserting the entry
row and every line row; line i gets line_index i, amounts via
Money.toCents, account_id resolved through the accounts map.  Fresh ids
come from the counter; posted_at uses the same monotone counter. -/
def journalRepoCreate (st : LedgerState) (v : VEntry) (accounts : List Account) :
    JournalEntry × LedgerState :=
  let entryId := st.nextId
  let accountIdOf := fun (code : String) =>
    ((accounts.find? (fun a => a.code = code)).map (fun a => a.id)).getD 0
  let lines := v.lines.enum.map (fun p =>
    { id := st.nextId + 1 + p.1, entry_id := entryId,
      account_id := accountIdOf p.2.account_code,
      account_code := p.2.account_code,
      debit_cents := toCents p.2.debit, credit_cents := toCents p.2.credit,
      line_index := p.1 : JournalLine })
  let e : JournalEntry :=
    { id := entryId, date := v.date, narration := v.narration,
      posted_at := st.nextId, reverses_entry_id := v.reverses_entry_id, lines := lines }
  (e, { st with entries := st.entries ++ [e], nextId := st.nextId + 1 + v.lines.length })

/-- JournalService.validateDoubleEntryRules, the per-line loop: totals are
accumulated, then duplicate-account, non-negative, both-sides and
zero-line checks in that order. -/
def vdLoop : List VLine → Int → Int → List String → Except LedgerErr (Int × Int)
  | [], totalDebits, totalCredits, _ => .ok (totalDebits, totalCredits)
  | l :: rest, totalDebits, totalCredits, accountCodes =>
    let debitCents := toCents l.debit
    let creditCents := toCents l.credit
    let totalDebits := totalDebits + debitCents
    let totalCredits := totalCredits + creditCents
    if accountCodes.contains l.account_code then
      .error (.validation ("Account '" ++ l.account_code ++
        "' appears multiple times in the same entry. This is not allowed in our ledger system."))
    else if debitCents < 0 ∨ creditCents < 0 then
      .error (.validation ("Debit and credit amounts must be non-negative"))
    else if debitCents > 0 ∧ creditCents > 0 then
      .error (.validation ("Line for account '" ++ l.account_code ++
        "' has both debit and credit amounts. Each line must have either a debit OR a credit amount, not both."))
    else if debitCents = 0 ∧ creditCents = 0 then
      .error (.validation ("Line for account '" ++ l.account_code ++
        "' has zero amount. Each line must have either a debit or credit amount greater than zero."))
    else vdLoop rest totalDebits totalCredits (l.account_code :: accountCodes)

/-- JournalService.validateDoubleEntryRules: after the per-line loop, the
balance equality, the positive-total check, and last the two-line minimum. -/
def validateDoubleEntryRules (v : VEntry) : Except LedgerErr Unit :=
  match vdLoop v.lines 0 0 [] with
  | .error e => .error e
  | .ok (totalDebits, totalCredits) =>
    if totalDebits ≠ totalCredits then
      .error (.validation ("Entry is not balanced. Total debits (" ++
        centsOver100ToString totalDebits ++ ") must equal total credits (" ++
        centsOver100ToString totalCredits ++ ")"))
    else if totalDebits = 0 then
      .error (.validation ("Journal entry must have a total amount greater than zero"))
    else if v.lines.length < 2 then
      .error (.validation ("Journal entry must have at least 2 lines"))
    else .ok ()

/-- The idempotency pre-check block of JournalService.createJournalEntry:
invalid check throws Conflict; a duplicate with a live entry returns that
entry; a duplicate whose entry is gone falls through to normal creation. -/
def idemPre (st : LedgerState) (v : VEntry) : Option String →
    Except LedgerErr (Option JournalEntry)
  | none => .ok none
  | some k =>
    match svcValidateRequest st k v with
    | .error e => .error e
    | .ok chk =>
      if !chk.isValid then .error (.conflict (chk.message.getD ""))
      else
        match chk.entryId with
        | none => .ok none
        | some eid =>
          match journalFindById st eid with
          | some e => .ok (some e)
          | none => .ok none

/-- The reversal-target existence check of createJournalEntry. -/
def revTargetCheck (st : LedgerState) (v : VEntry) : Except LedgerErr Unit :=
  match v.reverses_entry_id with
  | none => .ok ()
  | some rid =>
    match journalFindById st rid with
    | some _ => .ok ()
    | none => .error (.validation ("Reversed entry with ID '" ++ toString rid ++ "' not found"))

/-- JournalService.createJournalEntry: schema validation, idempotency
pre-check, account resolution, reversal-target check, business rules, the
journal transaction, then (separately) the idempotency record. -/
def createJournalEntry (st : LedgerState) (entryData : EntryReq)
    (idempotencyKey : Option String) : Except LedgerErr JournalEntry × LedgerState :=
  match validateInputJournal st.today entryData with
  | .error msg => (.error (.validation msg), st)
  | .ok v =>
    match idemPre st v idempotencyKey with
    | .error e => (.error e, st)
    | .ok (some existing) => (.ok existing, st)
    | .ok none =>
      match validateAccountsExist st (v.lines.map (fun l => l.account_code)) with
      | .error e => (.error e, st)
      | .ok accounts =>
        match revTargetCheck st v with
        | .error e => (.error e, st)
        | .ok () =>
          match validateDoubleEntryRules v with
          | .error e => (.error e, st)
          | .ok () =>
            let created := journalRepoCreate st v accounts
            match idempotencyKey with
            | none => (.ok created.1, created.2)
            | some k =>
              match svcRecordRequest created.2 k v created.1.id with
              | (.error e, st2) => (.error e, st2)
              | (.ok _, st2) => (.ok created.1, st2)

/-- JournalService.createReversalEntry: look up the original, swap each
line's debit and credit through the money codec, and post through the full
createJournalEntry pipeline carrying reverses_entry_id. -/
def createReversalEntry (st : LedgerState) (originalEntryId : Nat) (narration : String)
    (reversalDate : Int) (idempotencyKey : Option String) :
    Except LedgerErr JournalEntry × LedgerState :=
  match journalFindById st originalEntryId with
  | none => (.error (.notFound ("Journal entry with ID '" ++ toString originalEntryId ++
      "' not found")), st)
  | some originalEntry =>
    let reversalLines := originalEntry.lines.map (fun l =>
      { account_code := l.account_code,
        debit := some (fromCents l.credit_cents),
        credit := some (fromCents l.debit_cents) : LineReq })
    createJournalEntry st
      { date := reversalDate, narration := narration, lines := reversalLines,
        reverses_entry_id := some originalEntryId } idempotencyKey

/-- accountSchema key checks (custom messages from the schema). -/
def accountSchemaErrors (code name : String) : List String :=
  (if isAlphanumStr code then [] else
    ["Account code must contain only alphanumeric characters"]) ++
  (if code.length < 1 then ["Account code must be at least 1 character long"] else []) ++
  (if code.length > 20 then ["Account code must not exceed 20 characters"] else []) ++
  (if name.length < 1 then ["Account name must be at least 1 character long"] else []) ++
  (if name.length > 100 then ["Account name must not exceed 100 characters"] else [])

/-- AccountRepository.create: one INSERT; a unique violation on the code
column surfaces as ConflictError. -/
def accountRepoCreate (st : LedgerState) (code name : String) (ty : AccountType) :
    Except LedgerErr Account × LedgerState :=
  if st.accounts.any (fun a => a.code = code) then
    (.error (.conflict ("Account with code '" ++ code ++ "' already exists")), st)
  else
    let a : Account := ⟨st.nextId, code, name, ty⟩
    (.ok a, { st with accounts := st.accounts ++ [a], nextId := st.nextId + 1 })

/-- AccountService.createAccount: schema validation, then the findByCode
pre-check which raises ValidationError on an existing code, then the
repository insert. -/
def createAccount (st : LedgerState) (code name : String) (ty : AccountType) :
    Except LedgerErr Account × LedgerState :=
  let errs := accountSchemaErrors code name
  if ¬ errs.isEmpty then
    (.error (.validation (String.intercalate (", ") errs)), st)
  else
    match findByCode st code with
    | some _ => (.error (.validation ("Account with code '" ++ code ++ "' already exists")), st)
    | none => accountRepoCreate st code name ty

/-- Balance query result row (src/models/types.ts AccountBalance). -/
structure AccountBalance where
  account_code : String
  account_name : String
  account_type : AccountType
  debits : Int
  credits : Int
  balance : Int
deriving DecidableEq, Repr

/-- Trial balance report; from and to keep the integer date model. -/
structure TrialBalanceReport where
  fromDate : Int
  toDate : Int
  accounts : List AccountBalance
  totalDebits : Int
  totalCredits : Int
deriving DecidableEq, Repr

/-- BalanceRepository.calculateDisplayBalance: netAmount = debits - credits
is returned on both branches (the credit-normal branch returns the same
signed figure). -/
def calculateDisplayBalance (accountType : AccountType) (debits credits : Int) : Int :=
  let netAmount := debits - credits
  if accountType = .Liability ∨ accountType = .Equity ∨ accountType = .Revenue then netAmount
  else netAmount

/-- The rows produced by `accounts LEFT JOIN journal_lines ON a.id =
jl.account_id LEFT JOIN journal_entries ON jl.entry_id = je.id` for one
account: one (entry date, debit_cents, credit_cents) triple per line of
the account.  Lines live inside their entry in this model and each line's
entry_id equals its containing entry's id, so joining through entry_id is
iteration over entries.  An account with no lines yields the single
all-NULL joined row, represented here by the empty list together with the
isEmpty checks at the use sites. -/
def joinRows (st : LedgerState) (a : Account) : List (Int × Int × Int) :=
  st.entries.flatMap (fun e =>
    (e.lines.filter (fun l => l.account_id = a.id)).map
      (fun l => (e.date, l.debit_cents, l.credit_cents)))

def rowsDebits (rows : List (Int × Int × Int)) : Int := (rows.map (fun r => r.2.1)).sum

def rowsCredits (rows : List (Int × Int × Int)) : Int := (rows.map (fun r => r.2.2)).sum

/-- BalanceRepository.getAccountBalance.  Without asOf, the WHERE clause
keeps every joined row including the all-NULL row of a line-less account,
whose COALESCEd sums are 0.  With asOf, `AND je.date <= $2` is appended:
under SQL three-valued logic the all-NULL row fails it, and so does every
row dated after asOf, so an account with no qualifying row produces no
group and the repository returns null. -/
def getAccountBalance (st : LedgerState) (accountCode : String) (asOfDate : Option Int) :
    Option AccountBalance :=
  match findByCode st accountCode with
  | none => none
  | some a =>
    let rows := joinRows st a
    match asOfDate with
    | none =>
      some ⟨a.code, a.name, a.type, rowsDebits rows, rowsCredits rows,
        calculateDisplayBalance a.type (rowsDebits rows) (rowsCredits rows)⟩
    | some d =>
      let kept := rows.filter (fun r => r.1 ≤ d)
      if kept.isEmpty then none
      else
        some ⟨a.code, a.name, a.type, rowsDebits kept, rowsCredits kept,
          calculateDisplayBalance a.type (rowsDebits kept) (rowsCredits kept)⟩

/-- One account's group in BalanceRepository.getTrialBalance.  The WHERE
clause `je.date IS NULL OR (je.date >= $1 AND je.date <= $2)` keeps the
all-NULL row of a line-less account (a zero row in the report) and the
in-range rows of an active account; an account all of whose joined rows
are out of range loses every row and produces no group at all. -/
def trialRow (st : LedgerState) (fromDate toDate : Int) (a : Account) :
    Option AccountBalance :=
  let rows := joinRows st a
  if rows.isEmpty then
    some ⟨a.code, a.name, a.type, 0, 0, calculateDisplayBalance a.type 0 0⟩
  else
    let kept := rows.filter (fun r => fromDate ≤ r.1 ∧ r.1 ≤ toDate)
    if kept.isEmpty then none
    else
      some ⟨a.code, a.name, a.type, rowsDebits kept, rowsCredits kept,
        calculateDisplayBalance a.type (rowsDebits kept) (rowsCredits kept)⟩

/-- BalanceRepository.getTrialBalance: the surviving groups (the ORDER BY
on account code is presentation only and not modelled) and the running
totals over them. -/
def getTrialBalance (st : LedgerState) (fromDate toDate : Int) : TrialBalanceReport :=
  let rows := st.accounts.filterMap (trialRow st fromDate toDate)
  ⟨fromDate, toDate, rows,
    (rows.map (fun r => r.debits)).sum, (rows.map (fun r => r.credits)).sum⟩

/-- BalanceService.getAccountBalance: AccountService.getAccount raises
ValidationError for an unknown code; a null repository result surfaces as
NotFoundError. -/
def svcGetAccountBalance (st : LedgerState) (accountCode : String)
    (asOfDate : Option Int) : Except LedgerErr AccountBalance :=
  match findByCode st accountCode with
  | none => .error (.validation ("Account with code '" ++ accountCode ++ "' not found"))
  | some _ =>
    match getAccountBalance st accountCode asOfDate with
    | none => .error (.notFound ("No balance data found for account '" ++ accountCode ++ "'"))
    | some b => .ok b

/-- BalanceService.getTrialBalance: date range validation from the query
schema, the repository report, then the runtime integrity self-check. -/
def svcGetTrialBalance (st : LedgerState) (fromDate toDate : Int) :
    Except LedgerErr TrialBalanceReport :=
  if toDate < fromDate then
    .error (.validation ("to date must be greater than or equal to from date"))
  else
    let tb := getTrialBalance st fromDate toDate
    if tb.totalDebits ≠ tb.totalCredits then
      .error (.internal ("Trial balance does not balance! Total debits: " ++
        toString tb.totalDebits ++ ", Total credits: " ++ toString tb.totalCredits ++
        ". This indicates a serious data integrity issue."))
    else .ok tb

/-- The multiplicity of an account id in a directory. -/
def countId (A : List Account) (i : Nat) : Nat :=
  (A.filter (fun a => a.id = i)).length

/-- The per-entry ledger invariant: line debits and credits agree. -/
abbrev entryBalanced (e : JournalEntry) : Prop :=
  (e.lines.map (fun l => l.debit_cents)).sum = (e.lines.map (fun l => l.credit_cents)).sum

/-- Formalizes the spec wording `debits = Σ(debit_cents of lines whose
entry.date satisfies the cutoff)` for comparison with the repository
queries; the cutoff predicate instantiates to `fun x => true` (no asOf),
`fun x => x ≤ d` (asOf) or the range test of the trial balance. -/
def specAccountDebits (st : LedgerState) (a : Account) (p : Int → Bool) : Int :=
  (((st.entries.filter (fun e => p e.date)).flatMap
    (fun e => e.lines.filter (fun l => l.account_id = a.id))).map
      (fun l => l.debit_cents)).sum

/-- Spec wording for the credit side, symmetrically to specAccountDebits. -/
def specAccountCredits (st : LedgerState) (a : Account) (p : Int → Bool) : Int :=
  (((st.entries.filter (fun e => p e.date)).flatMap
    (fun e => e.lines.filter (fun l => l.account_id = a.id))).map
      (fun l => l.credit_cents)).sum

/-! Concrete scenario used by the witnesses and counterexamples: a Cash
asset account and a Capital equity account, one balanced posting of 10.00
(1000 cents) on day 50, with day 100 as the current date. -/

def exAccounts : List Account :=
  [⟨0, "1001", "Cash", .Asset⟩, ⟨1, "3001", "Capital", .Equity⟩]

def exState : LedgerState := ⟨exAccounts, [], [], 2, 100⟩

def exReq1 : EntryReq :=
  ⟨50, "seed", [⟨"1001", some 10, none⟩, ⟨"3001", none, some 10⟩], none⟩

/-- Same key-relevant scalars as exReq1 but different line amounts. -/
def exReq2 : EntryReq :=
  ⟨50, "seed", [⟨"1001", some 20, none⟩, ⟨"3001", none, some 20⟩], none⟩

def postedState : LedgerState := (createJournalEntry exState exReq1 none).2

/-- The entry persisted by the seed posting. -/
def postedEntry : JournalEntry :=
  match (createJournalEntry exState exReq1 none).1 with
  | .ok e => e
  | .error _ => default

/-- A balanced request dated in the future (day 200 with today = 100). -/
def c10Req : EntryReq :=
  ⟨200, "future dated", [⟨"1001", some 10, none⟩, ⟨"3001", none, some 10⟩], none⟩

def idemCall1 : Except LedgerErr JournalEntry × LedgerState :=
  createJournalEntry exState exReq1 (some ("k1"))

def idemEntry1 : JournalEntry :=
  match idemCall1.1 with
  | .ok e => e
  | .error _ => default

def idemState1 : LedgerState := idemCall1.2

def c4Req : EntryReq := ⟨50, "test", [⟨"1001", some 5, none⟩], none⟩

def c7V : VEntry := normalizeReq exReq1

def c7Accounts : List Account :=
  match validateAccountsExist exState (c7V.lines.map (fun l => l.account_code)) with
  | .ok accs => accs
  | .error _ => []

/-- The program state at the point between the two database transactions
of createJournalEntry: the journal transaction has committed, the
idempotency insert has not yet run. -/
def c7Mid : JournalEntry × LedgerState := journalRepoCreate exState c7V c7Accounts

def revCall1 : Except LedgerErr JournalEntry × LedgerState :=
  createReversalEntry postedState 2 ("reversal") 60 none

def revEntry1 : JournalEntry :=
  match revCall1.1 with
  | .ok e => e
  | .error _ => default

def revState1 : LedgerState := revCall1.2

def revCall2 : Except LedgerErr JournalEntry × LedgerState :=
  createReversalEntry revState1 revEntry1.id ("reversal of reversal") 61 none

def revEntry2 : JournalEntry :=
  match revCall2.1 with
  | .ok e => e
  | .error _ => default

def revState2 : LedgerState := revCall2.2

/-! Lemmas connecting the computational money codec to its textbook
floor/division forms. -/

lemma fromCents_eq_div (cents : Int) : fromCents cents = (cents : ℚ) / 100 := by
  unfold fromCents
  exact_mod_cast Rat.mkRat_eq_div cents 100

lemma toCents_eq_floor (q : ℚ) : toCents q = ⌊q * 100 + 1 / 2⌋ := by
  have h : q * 100 + 1 / 2 =
      ((200 * q.num + (q.den : Int) : Int) : ℚ) / (((2 * q.den : ℕ)) : ℚ) := by
    have hq := Rat.num_div_den q
    set n := q.num with hn
    set d := q.den with hd
    have hd0 : (d : ℚ) ≠ 0 := Nat.cast_ne_zero.mpr q.den_nz
    rw [← hq]
    field_simp
    ring
  rw [h, Rat.floor_intCast_div_natCast]
  unfold toCents
  push_cast
  ring_nf

lemma toCents_fromCents (c : Int) : toCents (fromCents c) = c := by
  rw [toCents_eq_floor, fromCents_eq_div, div_mul_cancel₀ _ (by norm_num : (100 : ℚ) ≠ 0)]
  rw [Int.floor_int_add]
  norm_num

/-! Helper lemmas about list sums used by the balance-engine proofs. -/

lemma sum_map_add {α : Type} (f g : α → Int) (l : List α) :
    (l.map (fun x => f x + g x)).sum = (l.map f).sum + (l.map g).sum := by
  induction l with
  | nil => simp
  | cons a t ih => simp only [List.map_cons, List.sum_cons, ih]; ring

lemma sum_map_sub {α : Type} (f g : α → Int) (l : List α) :
    (l.map (fun x => f x - g x)).sum = (l.map f).sum - (l.map g).sum := by
  induction l with
  | nil => simp
  | cons a t ih => simp only [List.map_cons, List.sum_cons, ih]; ring

lemma sum_map_zero {α : Type} (l : List α) : (l.map (fun _ => (0 : Int))).sum = 0 := by
  induction l with
  | nil => simp
  | cons a t ih => simp [ih]

lemma sum_swap {α β : Type} (A : List α) (B : List β) (g : α → β → Int) :
    (A.map (fun a => (B.map (g a)).sum)).sum =
      (B.map (fun b => (A.map (fun a => g a b)).sum)).sum := by
  induction A with
  | nil => simp [sum_map_zero]
  | cons a t ih =>
    simp only [List.map_cons, List.sum_cons, ih]
    rw [← sum_map_add]

lemma sum_filter_as_if {α : Type} (q : α → Bool) (δ : α → Int) (l : List α) :
    ((l.filter q).map δ).sum = (l.map (fun x => if q x then δ x else 0)).sum := by
  induction l with
  | nil => simp
  | cons a t ih =>
    by_cases h : q a <;> simp [List.filter_cons, h, ih]

lemma sum_map_append {α : Type} (f : α → Int) (l₁ l₂ : List α) :
    ((l₁ ++ l₂).map f).sum = (l₁.map f).sum + (l₂.map f).sum := by
  simp

lemma countId_nil (i : Nat) : countId [] i = 0 := rfl

lemma countId_cons (a : Account) (A : List Account) (i : Nat) :
    countId (a :: A) i = (if a.id = i then 1 else 0) + countId A i := by
  by_cases h : a.id = i
  · simp [countId, List.filter_cons, h]
    omega
  · simp [countId, List.filter_cons, h]

lemma countId_eq_zero {A : List Account} {i : Nat}
    (h : i ∉ A.map (fun a => a.id)) : countId A i = 0 := by
  induction A with
  | nil => rfl
  | cons a t ih =>
    simp only [List.map_cons, List.mem_cons] at h
    push_neg at h
    rw [countId_cons, ih h.2, if_neg (fun hc => h.1 hc.symm)]

lemma countId_eq_one {A : List Account} {i : Nat}
    (hn : (A.map (fun a => a.id)).Nodup) (hm : i ∈ A.map (fun a => a.id)) :
    countId A i = 1 := by
  induction A with
  | nil => simp at hm
  | cons a t ih =>
    simp only [List.map_cons, List.nodup_cons] at hn
    simp only [List.map_cons, List.mem_cons] at hm
    rcases hm with hm | hm
    · rw [countId_cons, if_pos hm.symm,
        countId_eq_zero (by rw [hm]; exact hn.1)]
    · rw [countId_cons, ih hn.2 hm]
      have hne : ¬ a.id = i := by
        intro hc
        exact hn.1 (by rw [hc]; exact hm)
      rw [if_neg hne]

/-- Summing a per-account filtered line sum over a directory counts each
line once per account sharing its id. -/
lemma sum_filter_by_account (A : List Account) (ls : List JournalLine)
    (δ : JournalLine → Int) :
    (A.map (fun a => ((ls.filter (fun l => l.account_id = a.id)).map δ).sum)).sum
      = (ls.map (fun l => (countId A l.account_id : Int) * δ l)).sum := by
  induction A with
  | nil =>
    simp only [List.map_nil, List.sum_nil, countId_nil]
    rw [← sum_map_zero ls]
    congr 1
    apply List.map_congr_left
    intro l _
    simp
  | cons a t ih =>
    simp only [List.map_cons, List.sum_cons]
    rw [ih, sum_filter_as_if, ← sum_map_add]
    congr 1
    apply List.map_congr_left
    intro l _
    rw [countId_cons]
    simp only [decide_eq_true_eq]
    by_cases h : l.account_id = a.id
    · rw [if_pos h, if_pos h.symm]
      push_cast
      ring
    · rw [if_neg h, if_neg (fun hc => h hc.symm)]
      push_cast
      ring

lemma vdLoop_ok (ls : List VLine) : ∀ td tc seen r,
    vdLoop ls td tc seen = .ok r →
    r.1 = td + (ls.map (fun l => toCents l.debit)).sum ∧
    r.2 = tc + (ls.map (fun l => toCents l.credit)).sum ∧
    ∀ l ∈ ls, 0 ≤ toCents l.debit ∧ 0 ≤ toCents l.credit := by
  induction ls with
  | nil =>
    intro td tc seen r h
    simp only [vdLoop] at h
    cases h
    simp
  | cons l rest ih =>
    intro td tc seen r h
    simp only [vdLoop] at h
    by_cases h1 : seen.contains l.account_code
    · rw [if_pos h1] at h
      simp at h
    · rw [if_neg h1] at h
      by_cases h2 : toCents l.debit < 0 ∨ toCents l.credit < 0
      · rw [if_pos h2] at h
        simp at h
      · rw [if_neg h2] at h
        by_cases h3 : toCents l.debit > 0 ∧ toCents l.credit > 0
        · rw [if_pos h3] at h
          simp at h
        · rw [if_neg h3] at h
          by_cases h4 : toCents l.debit = 0 ∧ toCents l.credit = 0
          · rw [if_pos h4] at h
            simp at h
          · rw [if_neg h4] at h
            obtain ⟨e1, e2, e3⟩ := ih _ _ _ _ h
            push_neg at h2
            refine ⟨?_, ?_, ?_⟩
            · rw [e1]
              simp only [List.map_cons, List.sum_cons]
              ring
            · rw [e2]
              simp only [List.map_cons, List.sum_cons]
              ring
            · intro x hx
              rcases List.mem_cons.mp hx with hx | hx
              · subst hx
                exact ⟨h2.1, h2.2⟩
              · exact e3 x hx

lemma sum_nonneg_of_mem {l : List Int} (h : ∀ x ∈ l, 0 ≤ x) : 0 ≤ l.sum := by
  induction l with
  | nil => simp
  | cons a t ih =>
    simp only [List.sum_cons]
    have := h a (List.mem_cons_self a t)
    have := ih (fun x hx => h x (List.mem_cons_of_mem a hx))
    omega

/-- On success the validator has established exactly the balance
invariants: equal totals, strictly positive, at least two lines. -/
lemma validateDoubleEntryRules_ok {v : VEntry}
    (h : validateDoubleEntryRules v = .ok ()) :
    sumDebitCents v = sumCreditCents v ∧ 0 < sumDebitCents v ∧ 2 ≤ v.lines.length := by
  unfold validateDoubleEntryRules at h
  cases hl : vdLoop v.lines 0 0 [] with
  | error e => rw [hl] at h; simp at h
  | ok r =>
    obtain ⟨td, tc⟩ := r
    rw [hl] at h
    dsimp only at h
    obtain ⟨e1, e2, e3⟩ := vdLoop_ok v.lines 0 0 [] (td, tc) hl
    simp only at e1 e2
    by_cases hb : td ≠ tc
    · rw [if_pos hb] at h; simp at h
    · rw [if_neg hb] at h
      push_neg at hb
      by_cases hz : td = 0
      · rw [if_pos hz] at h; simp at h
      · rw [if_neg hz] at h
        by_cases hm : v.lines.length < 2
        · rw [if_pos hm] at h; simp at h
        · have hd : sumDebitCents v = td := by rw [e1]; simp [sumDebitCents]
          have hc : sumCreditCents v = tc := by rw [e2]; simp [sumCreditCents]
          have hpos : 0 ≤ sumDebitCents v := by
            apply sum_nonneg_of_mem
            intro x hx
            obtain ⟨l, hml, hlx⟩ := List.mem_map.mp hx
            rw [← hlx]
            exact (e3 l hml).1
          refine ⟨by rw [hd, hc, hb], ?_, by omega⟩
          rcases lt_or_eq_of_le hpos with hlt | heq
          · exact hlt
          · exact absurd (by rw [hd] at heq; exact heq.symm) hz

lemma enum_map_snd_comp {α β : Type} (l : List α) (g : α → β) :
    l.enum.map (fun p => g p.2) = l.map g := by
  rw [show (fun p : Nat × α => g p.2) = g ∘ Prod.snd from rfl, ← List.map_map,
    List.enum_map_snd]

/-- The lines persisted by the journal transaction carry exactly the
validator's cents on the debit side. -/
lemma repoCreate_map_debit (st : LedgerState) (v : VEntry) (accounts : List Account) :
    (journalRepoCreate st v accounts).1.lines.map (fun l => l.debit_cents) =
      v.lines.map (fun l => toCents l.debit) := by
  show (v.lines.enum.map _).map _ = _
  rw [List.map_map]
  exact enum_map_snd_comp v.lines (fun l => toCents l.debit)

lemma repoCreate_map_credit (st : LedgerState) (v : VEntry) (accounts : List Account) :
    (journalRepoCreate st v accounts).1.lines.map (fun l => l.credit_cents) =
      v.lines.map (fun l => toCents l.credit) := by
  show (v.lines.enum.map _).map _ = _
  rw [List.map_map]
  exact enum_map_snd_comp v.lines (fun l => toCents l.credit)

lemma repoCreate_map_code (st : LedgerState) (v : VEntry) (accounts : List Account) :
    (journalRepoCreate st v accounts).1.lines.map (fun l => l.account_code) =
      v.lines.map (fun l => l.account_code) := by
  show (v.lines.enum.map _).map _ = _
  rw [List.map_map]
  exact enum_map_snd_comp v.lines (fun l => l.account_code)

lemma repoCreate_map_index (st : LedgerState) (v : VEntry) (accounts : List Account) :
    (journalRepoCreate st v accounts).1.lines.map (fun l => l.line_index) =
      List.range v.lines.length := by
  show (v.lines.enum.map _).map _ = _
  rw [List.map_map]
  exact List.enum_map_fst v.lines

/-- Pushing the date filter of a balance query through the join: filtering
the joined rows by entry date is joining only the passing entries. -/
lemma flatMapRows_filter (es : List JournalEntry) (aid : Nat) (p : Int → Bool) :
    (es.flatMap (fun e => (e.lines.filter (fun l => l.account_id = aid)).map
        (fun l => (e.date, l.debit_cents, l.credit_cents)))).filter (fun r => p r.1) =
      (es.filter (fun e => p e.date)).flatMap
        (fun e => (e.lines.filter (fun l => l.account_id = aid)).map
          (fun l => (e.date, l.debit_cents, l.credit_cents))) := by
  induction es with
  | nil => simp
  | cons e t ih =>
    rw [List.flatMap_cons, List.filter_append, ih, List.filter_cons]
    have hconst : ((e.lines.filter (fun l => l.account_id = aid)).map
        (fun l => (e.date, l.debit_cents, l.credit_cents))).filter (fun r => p r.1) =
        if p e.date then (e.lines.filter (fun l => l.account_id = aid)).map
          (fun l => (e.date, l.debit_cents, l.credit_cents)) else [] := by
      rw [List.filter_map]
      by_cases h : p e.date
      · rw [if_pos h]
        congr 1
        apply List.filter_eq_self.mpr
        intro x _
        simpa using h
      · rw [if_neg h]
        rw [List.filter_eq_nil_iff.mpr, List.map_nil]
        intro x _
        simpa using h
    rw [hconst]
    by_cases h : p e.date
    · rw [if_pos h, if_pos (by simpa using h), List.flatMap_cons]
    · rw [if_neg h, if_neg (by simpa using h), List.nil_append]

lemma sum_map_flatMap {β γ : Type} (es : List β) (g : β → List γ) (δ : γ → Int) :
    ((es.flatMap g).map δ).sum = (es.map (fun e => ((g e).map δ).sum)).sum := by
  induction es with
  | nil => simp
  | cons e t ih => rw [List.flatMap_cons, List.map_append, List.sum_append, ih,
      List.map_cons, List.sum_cons]

/-- Per-account contribution of a trial-balance group to the difference of
the report totals: the dropped and the zero groups both contribute the sum
over their (possibly empty) in-range rows. -/
lemma trialRow_delta (st : LedgerState) (f t : Int) (a : Account) :
    (match trialRow st f t a with
      | some row => row.debits - row.credits
      | none => 0) =
      (((joinRows st a).filter (fun r => f ≤ r.1 ∧ r.1 ≤ t)).map
        (fun r => r.2.1 - r.2.2)).sum := by
  unfold trialRow
  by_cases h0 : (joinRows st a).isEmpty
  · rw [if_pos h0]
    dsimp only
    rw [List.isEmpty_iff.mp h0]
    simp
  · rw [if_neg h0]
    by_cases hk : ((joinRows st a).filter (fun r => f ≤ r.1 ∧ r.1 ≤ t)).isEmpty
    · rw [if_pos hk]
      dsimp only
      rw [List.isEmpty_iff.mp hk]
      simp
    · rw [if_neg hk]
      dsimp only
      unfold rowsDebits rowsCredits
      rw [← sum_map_sub]

lemma filterMap_totals_sub (A : List Account) (st : LedgerState) (f t : Int) :
    ((A.filterMap (trialRow st f t)).map (fun r => r.debits)).sum -
      ((A.filterMap (trialRow st f t)).map (fun r => r.credits)).sum =
      (A.map (fun a => match trialRow st f t a with
        | some row => row.debits - row.credits
        | none => 0)).sum := by
  induction A with
  | nil => simp
  | cons a T ih =>
    cases h : trialRow st f t a with
    | none => simp only [List.filterMap_cons, h, List.map_cons, List.sum_cons]; omega
    | some row =>
      simp only [List.filterMap_cons, h, List.map_cons, List.sum_cons]
      rw [← ih]
      ring

/-- The trial balance of a store of balanced entries, whose lines all
refer to distinct existing accounts, has equal totals over any range. -/
lemma trial_balance_balances (st : LedgerState) (f t : Int)
    (hn : (st.accounts.map (fun a => a.id)).Nodup)
    (hcov : ∀ e ∈ st.entries, ∀ l ∈ e.lines,
      l.account_id ∈ st.accounts.map (fun a => a.id))
    (hbal : ∀ e ∈ st.entries, entryBalanced e) :
    (getTrialBalance st f t).totalDebits = (getTrialBalance st f t).totalCredits := by
  have hsub : (getTrialBalance st f t).totalDebits -
      (getTrialBalance st f t).totalCredits = 0 := by
    show ((st.accounts.filterMap (trialRow st f t)).map (fun r => r.debits)).sum -
      ((st.accounts.filterMap (trialRow st f t)).map (fun r => r.credits)).sum = 0
    rw [filterMap_totals_sub]
    have hrw : ∀ a ∈ st.accounts,
        (match trialRow st f t a with
          | some row => row.debits - row.credits
          | none => 0) =
        ((st.entries.filter (fun e => f ≤ e.date ∧ e.date ≤ t)).map (fun e =>
          ((e.lines.filter (fun l => l.account_id = a.id)).map
            (fun l => l.debit_cents - l.credit_cents)).sum)).sum := by
      intro a _
      rw [trialRow_delta]
      unfold joinRows
      rw [flatMapRows_filter st.entries a.id (fun x => decide (f ≤ x ∧ x ≤ t)),
        sum_map_flatMap]
      congr 1
      apply List.map_congr_left
      intro e _
      rw [List.map_map]
      rfl
    rw [List.map_congr_left hrw, sum_swap]
    have hzero : ∀ e ∈ st.entries.filter (fun e => f ≤ e.date ∧ e.date ≤ t),
        (st.accounts.map (fun a =>
          ((e.lines.filter (fun l => l.account_id = a.id)).map
            (fun l => l.debit_cents - l.credit_cents)).sum)).sum = 0 := by
      intro e he
      have heMem : e ∈ st.entries := List.mem_of_mem_filter he
      rw [sum_filter_by_account]
      have hone : ∀ l ∈ e.lines,
          ((countId st.accounts l.account_id : Int) *
            (l.debit_cents - l.credit_cents)) = l.debit_cents - l.credit_cents := by
        intro l hl
        rw [countId_eq_one hn (hcov e heMem l hl)]
        push_cast
        ring
      rw [List.map_congr_left hone, sum_map_sub]
      exact sub_eq_zero_of_eq (hbal e heMem)
    rw [List.map_congr_left hzero, sum_map_zero]
  exact sub_eq_zero.mp hsub

/-- C1: an entry accepted by the double-entry validator has equal debit
and credit cent totals with the common total strictly positive; the entry
persisted for it by the journal transaction satisfies the same balance
invariant on its stored cents; and consequently, over any store whose
entries are balanced and whose lines reference distinct existing
accounts, the trial balance totals agree for every date range. -/
theorem accepted_entries_balance_and_trial_balance_balances
    (v : VEntry) (stc st : LedgerState) (accs : List Account) (f t : Int)
    (hv : validateDoubleEntryRules v = .ok ())
    (hn : (st.accounts.map (fun a => a.id)).Nodup)
    (hcov : ∀ e ∈ st.entries, ∀ l ∈ e.lines,
      l.account_id ∈ st.accounts.map (fun a => a.id))
    (hbal : ∀ e ∈ st.entries, entryBalanced e) :
    (sumDebitCents v = sumCreditCents v ∧ 0 < sumDebitCents v) ∧
    entryBalanced (journalRepoCreate stc v accs).1 ∧
    (getTrialBalance st f t).totalDebits = (getTrialBalance st f t).totalCredits := by
  obtain ⟨h1, h2, _⟩ := validateDoubleEntryRules_ok hv
  refine ⟨⟨h1, h2⟩, ?_, trial_balance_balances st f t hn hcov hbal⟩
  show ((journalRepoCreate stc v accs).1.lines.map (fun l => l.debit_cents)).sum =
    ((journalRepoCreate stc v accs).1.lines.map (fun l => l.credit_cents)).sum
  rw [repoCreate_map_debit, repoCreate_map_credit]
  exact h1

/-- Witness for C1: the seed posting of the concrete scenario. -/
theorem accepted_entries_balance_and_trial_balance_balances_witness :
    (validateDoubleEntryRules (normalizeReq exReq1) = .ok () ∧
      (postedState.accounts.map (fun a => a.id)).Nodup ∧
      (∀ e ∈ postedState.entries, ∀ l ∈ e.lines,
        l.account_id ∈ postedState.accounts.map (fun a => a.id)) ∧
      (∀ e ∈ postedState.entries, entryBalanced e)) ∧
    ((sumDebitCents (normalizeReq exReq1) = sumCreditCents (normalizeReq exReq1) ∧
      0 < sumDebitCents (normalizeReq exReq1)) ∧
    entryBalanced (journalRepoCreate exState (normalizeReq exReq1) exAccounts).1 ∧
    (getTrialBalance postedState 1 60).totalDebits =
      (getTrialBalance postedState 1 60).totalCredits) :=
  ⟨⟨by decide, by decide, by decide, by decide⟩,
    accepted_entries_balance_and_trial_balance_balances (normalizeReq exReq1)
      exState postedState exAccounts 1 60 (by decide) (by decide) (by decide) (by decide)⟩

/-- C3: the canonical hash ignores nested content: two requests that
differ only in their line amounts normalize to the same string, hence the
same SHA-256 hash; the second create-entry with the same key is therefore
treated as a safe replay returning the first entry, not rejected with
Conflict, and the ledger keeps the single original entry. -/
theorem same_key_different_lines_replays_instead_of_conflicting :
    normalizeReq exReq1 ≠ normalizeReq exReq2 ∧
    hashRequest (normalizeReq exReq1) = hashRequest (normalizeReq exReq2) ∧
    idemCall1.1 = .ok idemEntry1 ∧
    createJournalEntry idemState1 exReq2 (some ("k1")) = (.ok idemEntry1, idemState1) := by
  decide

/-- C4 counterexample: a single-line entry violates the two-line rule,
which is first in the claimed order, together with the balance rule; the
reported message is the comma-join of both schema messages, not the first
violated rule's message verbatim in either of its implementation
phrasings. -/
theorem first_violated_rule_message_counterexample :
    createJournalEntry exState c4Req none =
      (.error (.validation ("At least 2 lines are required for a journal entry, Total debits (5) must equal total credits (0)")), exState) ∧
    ("At least 2 lines are required for a journal entry, Total debits (5) must equal total credits (0)" ≠
      "At least 2 lines are required for a journal entry") ∧
    ("At least 2 lines are required for a journal entry, Total debits (5) must equal total credits (0)" ≠
      "Journal entry must have at least 2 lines") := by
  decide

/-- A request violating any schema rule makes createJournalEntry fail at
the validateInput step with the joined messages and an untouched state. -/
lemma createJournalEntry_schema_error (st : LedgerState) (P : EntryReq)
    (k : Option String) (h : schemaErrors st.today P ≠ []) :
    createJournalEntry st P k =
      (.error (.validation (String.intercalate (", ") (schemaErrors st.today P))), st) := by
  have hne : ¬ ((schemaErrors st.today P).isEmpty = true) := by
    intro hc
    exact h (List.isEmpty_iff.mp hc)
  unfold createJournalEntry validateInputJournal
  rw [if_neg hne]

/-- C4 amended: the schema pass runs first with abortEarly disabled, so
whenever any schema-level rule is violated, creation fails before any
later check or persistence, and the failure message is the comma-join of
the messages of ALL violated schema rules in schema order. -/
theorem schema_violations_reported_joined (st : LedgerState) (P : EntryReq)
    (k : Option String) (h : schemaErrors st.today P ≠ []) :
    createJournalEntry st P k =
      (.error (.validation (String.intercalate (", ") (schemaErrors st.today P))), st) :=
  createJournalEntry_schema_error st P k h

/-- Witness for the amended C4 at the single-line request. -/
theorem schema_violations_reported_joined_witness :
    (schemaErrors exState.today c4Req ≠ []) ∧
    createJournalEntry exState c4Req none =
      (.error (.validation (String.intercalate (", ") (schemaErrors exState.today c4Req))), exState) :=
  ⟨by decide, schema_violations_reported_joined exState c4Req none (by decide)⟩

/-- C5 counterexample: account 1001 exists in the directory and all of
its lines are dated after day 40, yet the asOf-40 balance query returns
null, surfaced by the service as NotFound, instead of a zero balance. -/
theorem balance_asof_before_activity_counterexample :
    (findByCode postedState ("1001")).isSome = true ∧
    getAccountBalance postedState ("1001") (some 40) = none ∧
    svcGetAccountBalance postedState ("1001") (some 40) =
      .error (.notFound ("No balance data found for account '1001'")) := by
  decide

/-- C6 counterexample: both directory accounts have activity, all of it
outside the queried range, and the trial balance for that range contains
no row at all rather than one row per account. -/
theorem trial_balance_drops_out_of_range_accounts :
    postedState.accounts.length = 2 ∧
    (∀ a ∈ postedState.accounts, joinRows postedState a ≠ []) ∧
    (getTrialBalance postedState 1 40).accounts = [] := by
  decide

/-- C7: the journal write and the idempotency record are two separate
database transactions.  At this valid keyed request the state committed
by the journal transaction already contains the created entry while no
idempotency record for the key exists, and the full createJournalEntry
call factors through exactly that intermediate state before the separate
idempotency insert — so a failure between the two transactions leaves an
entry without its mapping. -/
theorem entry_persists_before_idempotency_record :
    validateInputJournal exState.today exReq1 = .ok c7V ∧
    validateAccountsExist exState (c7V.lines.map (fun l => l.account_code)) = .ok c7Accounts ∧
    (c7Mid.2.entries.any (fun e => e.id = c7Mid.1.id)) = true ∧
    (c7Mid.2.idem.any (fun r => r.key = "k1")) = false ∧
    createJournalEntry exState exReq1 (some ("k1")) =
      (.ok c7Mid.1, (svcRecordRequest c7Mid.2 ("k1") c7V c7Mid.1.id).2) := by
  decide

/-- C9: creating an account whose code already exists fails through the
service pre-check with a ValidationError carrying the duplicate-code
message, not with a ConflictError, and the state is unchanged. -/
theorem duplicate_account_code_yields_validation_error :
    createAccount exState ("1001") ("Cash duplicate") .Asset =
      (.error (.validation ("Account with code '1001' already exists")), exState) := by
  decide

/-! Helper lemmas for the balance query characterizations. -/

lemma find?_append_of_none {α : Type} (p : α → Bool) (l1 l2 : List α)
    (h : l1.find? p = none) : (l1 ++ l2).find? p = l2.find? p := by
  induction l1 with
  | nil => simp
  | cons a t ih =>
    rw [List.cons_append, List.find?_cons]
    cases hp : p a with
    | true => simp [hp] at h
    | false =>
      rw [List.find?_cons, hp] at h
      simp only [hp]
      exact ih h

lemma calculateDisplayBalance_sub (ty : AccountType) (d c : Int) :
    calculateDisplayBalance ty d c = d - c := by
  unfold calculateDisplayBalance
  split_ifs <;> rfl

lemma rowsDebits_filter (st : LedgerState) (a : Account) (p : Int → Bool) :
    rowsDebits ((joinRows st a).filter (fun r => p r.1)) = specAccountDebits st a p := by
  unfold rowsDebits specAccountDebits joinRows
  rw [flatMapRows_filter st.entries a.id p, sum_map_flatMap, sum_map_flatMap]
  congr 1
  apply List.map_congr_left
  intro e _
  rw [List.map_map]
  rfl

lemma rowsCredits_filter (st : LedgerState) (a : Account) (p : Int → Bool) :
    rowsCredits ((joinRows st a).filter (fun r => p r.1)) = specAccountCredits st a p := by
  unfold rowsCredits specAccountCredits joinRows
  rw [flatMapRows_filter st.entries a.id p, sum_map_flatMap, sum_map_flatMap]
  congr 1
  apply List.map_congr_left
  intro e _
  rw [List.map_map]
  rfl

lemma rowsDebits_all (st : LedgerState) (a : Account) :
    rowsDebits (joinRows st a) = specAccountDebits st a (fun _ => true) := by
  have h := rowsDebits_filter st a (fun _ => true)
  simpa using h

lemma rowsCredits_all (st : LedgerState) (a : Account) :
    rowsCredits (joinRows st a) = specAccountCredits st a (fun _ => true) := by
  have h := rowsCredits_filter st a (fun _ => true)
  simpa using h

/-- A joined row passing the date filter exists exactly when some entry
passing the filter has a line on the account. -/
lemma kept_ne_nil_iff (st : LedgerState) (a : Account) (p : Int → Bool) :
    ((joinRows st a).filter (fun r => p r.1)) ≠ [] ↔
      ∃ e ∈ st.entries, p e.date = true ∧ ∃ l ∈ e.lines, l.account_id = a.id := by
  rw [Ne, List.eq_nil_iff_forall_not_mem]
  push_neg
  constructor
  · rintro ⟨r, hr⟩
    rw [List.mem_filter] at hr
    obtain ⟨hrm, hrp⟩ := hr
    unfold joinRows at hrm
    rw [List.mem_flatMap] at hrm
    obtain ⟨e, he, hre⟩ := hrm
    rw [List.mem_map] at hre
    obtain ⟨l, hl, hrl⟩ := hre
    rw [List.mem_filter] at hl
    refine ⟨e, he, ?_, l, hl.1, by simpa using hl.2⟩
    rw [← hrl] at hrp
    simpa using hrp
  · rintro ⟨e, he, hp, l, hl, hid⟩
    refine ⟨(e.date, l.debit_cents, l.credit_cents), List.mem_filter.mpr ⟨?_, by simpa using hp⟩⟩
    unfold joinRows
    rw [List.mem_flatMap]
    exact ⟨e, he, List.mem_map.mpr ⟨l, List.mem_filter.mpr ⟨hl, by simpa using hid⟩, rfl⟩⟩

/-- Any trial-balance group row carries its account code. -/
lemma trialRow_code {st : LedgerState} {f t : Int} {b : Account} {row : AccountBalance}
    (h : trialRow st f t b = some row) : row.account_code = b.code := by
  unfold trialRow at h
  by_cases h0 : (joinRows st b).isEmpty
  · rw [if_pos h0] at h
    cases h
    rfl
  · rw [if_neg h0] at h
    dsimp only at h
    by_cases hk : ((joinRows st b).filter (fun r => f ≤ r.1 ∧ r.1 ≤ t)).isEmpty
    · rw [if_pos hk] at h
      simp at h
    · rw [if_neg hk] at h
      cases h
      rfl

/-- C5 amended: for an account in the directory, the balance query with
no asOf returns the spec sums over all lines (zero for a line-less
account) with balance = debits - credits; with an asOf date it returns
the spec sums over lines dated at most asOf when at least one such line
exists, and returns null — surfaced by the service as NotFound — when no
line qualifies, in particular when the account has no lines at all or all
its lines fall after asOf. -/
theorem account_balance_query_characterization
    (st : LedgerState) (code : String) (a : Account)
    (ha : findByCode st code = some a) :
    getAccountBalance st code none = some ⟨a.code, a.name, a.type,
      specAccountDebits st a (fun _ => true), specAccountCredits st a (fun _ => true),
      specAccountDebits st a (fun _ => true) - specAccountCredits st a (fun _ => true)⟩ ∧
    (∀ d : Int, (∃ e ∈ st.entries, e.date ≤ d ∧ ∃ l ∈ e.lines, l.account_id = a.id) →
      getAccountBalance st code (some d) = some ⟨a.code, a.name, a.type,
        specAccountDebits st a (fun x => x ≤ d), specAccountCredits st a (fun x => x ≤ d),
        specAccountDebits st a (fun x => x ≤ d) -
          specAccountCredits st a (fun x => x ≤ d)⟩) ∧
    (∀ d : Int, (¬ ∃ e ∈ st.entries, e.date ≤ d ∧ ∃ l ∈ e.lines, l.account_id = a.id) →
      getAccountBalance st code (some d) = none ∧
      svcGetAccountBalance st code (some d) =
        .error (.notFound ("No balance data found for account '" ++ code ++ "'"))) := by
  have hnone : getAccountBalance st code none = some ⟨a.code, a.name, a.type,
      specAccountDebits st a (fun _ => true), specAccountCredits st a (fun _ => true),
      specAccountDebits st a (fun _ => true) - specAccountCredits st a (fun _ => true)⟩ := by
    unfold getAccountBalance
    rw [ha]
    dsimp only
    rw [rowsDebits_all, rowsCredits_all, calculateDisplayBalance_sub]
  refine ⟨hnone, ?_, ?_⟩
  · intro d hex
    have hne : ((joinRows st a).filter (fun r => decide (r.1 ≤ d))) ≠ [] := by
      apply (kept_ne_nil_iff st a (fun x => decide (x ≤ d))).mpr
      simpa using hex
    unfold getAccountBalance
    rw [ha]
    dsimp only
    rw [if_neg (fun hc => hne (List.isEmpty_iff.mp hc))]
    rw [rowsDebits_filter st a (fun x => decide (x ≤ d)),
      rowsCredits_filter st a (fun x => decide (x ≤ d)), calculateDisplayBalance_sub]
  · intro d hnex
    have hk : ((joinRows st a).filter (fun r => decide (r.1 ≤ d))) = [] := by
      by_contra hc
      exact hnex (by simpa using (kept_ne_nil_iff st a (fun x => decide (x ≤ d))).mp hc)
    have hres : getAccountBalance st code (some d) = none := by
      unfold getAccountBalance
      rw [ha]
      dsimp only
      rw [if_pos (List.isEmpty_iff.mpr hk)]
    refine ⟨hres, ?_⟩
    unfold svcGetAccountBalance
    rw [ha]
    dsimp only
    rw [hres]

/-- Witness for the amended C5 at the concrete scenario: account 1001
with the seed posting on day 50, queried without asOf, with asOf 60, and
with asOf 40 where no line qualifies. -/
theorem account_balance_query_characterization_witness :
    (findByCode postedState ("1001") = some ⟨0, "1001", "Cash", .Asset⟩) ∧
    getAccountBalance postedState ("1001") none =
      some ⟨"1001", "Cash", .Asset,
        specAccountDebits postedState ⟨0, "1001", "Cash", .Asset⟩ (fun _ => true),
        specAccountCredits postedState ⟨0, "1001", "Cash", .Asset⟩ (fun _ => true),
        specAccountDebits postedState ⟨0, "1001", "Cash", .Asset⟩ (fun _ => true) -
          specAccountCredits postedState ⟨0, "1001", "Cash", .Asset⟩ (fun _ => true)⟩ ∧
    ((∃ e ∈ postedState.entries, e.date ≤ 40 ∧
        ∃ l ∈ e.lines, l.account_id = (0 : Nat)) → False) ∧
    getAccountBalance postedState ("1001") (some 40) = none ∧
    svcGetAccountBalance postedState ("1001") (some 40) =
      .error (.notFound ("No balance data found for account '1001'")) :=
  have h := account_balance_query_characterization postedState ("1001")
    ⟨0, "1001", "Cash", .Asset⟩ (by decide)
  ⟨by decide, h.1, by decide,
    (h.2.2 40 (by decide)).1, (h.2.2 40 (by decide)).2⟩

/-- C6 amended: the trial balance for a range contains a zero row for
every directory account with no lines at all, and a row holding the spec
sums over in-range lines for every account with at least one in-range
line; an account whose lines all fall outside the range is omitted from
the report. -/
theorem trial_balance_row_characterization
    (st : LedgerState) (f t : Int) (a : Account)
    (ha : a ∈ st.accounts)
    (hcodes : (st.accounts.map (fun x => x.code)).Nodup) :
    (joinRows st a = [] →
      (⟨a.code, a.name, a.type, 0, 0, 0⟩ : AccountBalance) ∈
        (getTrialBalance st f t).accounts) ∧
    ((∃ e ∈ st.entries, (f ≤ e.date ∧ e.date ≤ t) ∧ ∃ l ∈ e.lines, l.account_id = a.id) →
      (⟨a.code, a.name, a.type,
        specAccountDebits st a (fun x => f ≤ x ∧ x ≤ t),
        specAccountCredits st a (fun x => f ≤ x ∧ x ≤ t),
        specAccountDebits st a (fun x => f ≤ x ∧ x ≤ t) -
          specAccountCredits st a (fun x => f ≤ x ∧ x ≤ t)⟩ : AccountBalance) ∈
        (getTrialBalance st f t).accounts) ∧
    (joinRows st a ≠ [] →
      (∀ e ∈ st.entries, (∃ l ∈ e.lines, l.account_id = a.id) →
        ¬ (f ≤ e.date ∧ e.date ≤ t)) →
      ∀ row ∈ (getTrialBalance st f t).accounts, row.account_code ≠ a.code) := by
  refine ⟨?_, ?_, ?_⟩
  · intro h0
    show _ ∈ st.accounts.filterMap (trialRow st f t)
    apply List.mem_filterMap.mpr
    refine ⟨a, ha, ?_⟩
    unfold trialRow
    rw [if_pos (List.isEmpty_iff.mpr h0)]
    rw [calculateDisplayBalance_sub]
    norm_num
  · intro hex
    have hkept : ((joinRows st a).filter (fun r => decide (f ≤ r.1 ∧ r.1 ≤ t))) ≠ [] := by
      apply (kept_ne_nil_iff st a (fun x => decide (f ≤ x ∧ x ≤ t))).mpr
      simpa using hex
    have hrows : joinRows st a ≠ [] := by
      intro hc
      apply hkept
      rw [hc]
      rfl
    show _ ∈ st.accounts.filterMap (trialRow st f t)
    apply List.mem_filterMap.mpr
    refine ⟨a, ha, ?_⟩
    unfold trialRow
    rw [if_neg (fun hc => hrows (List.isEmpty_iff.mp hc))]
    dsimp only
    rw [if_neg (fun hc => hkept (List.isEmpty_iff.mp hc))]
    rw [rowsDebits_filter st a (fun x => decide (f ≤ x ∧ x ≤ t)),
      rowsCredits_filter st a (fun x => decide (f ≤ x ∧ x ≤ t)),
      calculateDisplayBalance_sub]
  · intro hrows hout row hrow hcode
    have hkept : ((joinRows st a).filter (fun r => decide (f ≤ r.1 ∧ r.1 ≤ t))) = [] := by
      by_contra hc
      obtain ⟨e, he, hp, l, hl, hid⟩ :=
        (kept_ne_nil_iff st a (fun x => decide (f ≤ x ∧ x ≤ t))).mp hc
      exact hout e he ⟨l, hl, hid⟩ (by simpa using hp)
    have hrowNone : trialRow st f t a = none := by
      unfold trialRow
      rw [if_neg (fun hc => hrows (List.isEmpty_iff.mp hc))]
      dsimp only
      rw [if_pos (List.isEmpty_iff.mpr hkept)]
    have hmem : row ∈ st.accounts.filterMap (trialRow st f t) := hrow
    obtain ⟨b, hb, hbrow⟩ := List.mem_filterMap.mp hmem
    have hbc : b.code = a.code := by rw [← trialRow_code hbrow, hcode]
    have hba : b = a := List.inj_on_of_nodup_map hcodes hb ha hbc
    rw [hba, hrowNone] at hbrow
    exact Option.noConfusion hbrow

/-- Witness for the amended C6 at the concrete scenario with the fully
covering range [1, 60]. -/
theorem trial_balance_row_characterization_witness :
    ((⟨0, "1001", "Cash", .Asset⟩ : Account) ∈ postedState.accounts ∧
      (postedState.accounts.map (fun x => x.code)).Nodup ∧
      (∃ e ∈ postedState.entries, ((1 : Int) ≤ e.date ∧ e.date ≤ 60) ∧
        ∃ l ∈ e.lines, l.account_id = (0 : Nat))) ∧
    (⟨"1001", "Cash", .Asset,
      specAccountDebits postedState ⟨0, "1001", "Cash", .Asset⟩ (fun x => 1 ≤ x ∧ x ≤ 60),
      specAccountCredits postedState ⟨0, "1001", "Cash", .Asset⟩ (fun x => 1 ≤ x ∧ x ≤ 60),
      specAccountDebits postedState ⟨0, "1001", "Cash", .Asset⟩ (fun x => 1 ≤ x ∧ x ≤ 60) -
        specAccountCredits postedState ⟨0, "1001", "Cash", .Asset⟩
          (fun x => 1 ≤ x ∧ x ≤ 60)⟩ : AccountBalance) ∈
      (getTrialBalance postedState 1 60).accounts :=
  ⟨⟨by decide, by decide, by decide⟩,
    (trial_balance_row_characterization postedState 1 60 ⟨0, "1001", "Cash", .Asset⟩
      (by decide) (by decide)).2.1 (by decide)⟩

/-- Case analysis of a successful createJournalEntry: either the
idempotency guard replayed an existing entry and the state is untouched,
or the full pipeline ran, the journal transaction built the entry, and
for a keyed request the idempotency record was then inserted. -/
lemma createJournalEntry_ok_cases
    {st : LedgerState} {P : EntryReq} {k : Option String} {e : JournalEntry}
    {st1 : LedgerState}
    (h : createJournalEntry st P k = (.ok e, st1)) :
    (∃ v, validateInputJournal st.today P = .ok v ∧ idemPre st v k = .ok (some e) ∧
      st1 = st) ∨
    (∃ v accs, validateInputJournal st.today P = .ok v ∧ idemPre st v k = .ok none ∧
      validateAccountsExist st (v.lines.map (fun l => l.account_code)) = .ok accs ∧
      revTargetCheck st v = .ok () ∧ validateDoubleEntryRules v = .ok () ∧
      e = (journalRepoCreate st v accs).1 ∧
      ((k = none ∧ st1 = (journalRepoCreate st v accs).2) ∨
        (∃ kk, k = some kk ∧ ∃ r,
          svcRecordRequest (journalRepoCreate st v accs).2 kk v
            ((journalRepoCreate st v accs).1.id) = (.ok r, st1)))) := by
  unfold createJournalEntry at h
  cases hval : validateInputJournal st.today P with
  | error m => rw [hval] at h; simp at h
  | ok v =>
    rw [hval] at h
    dsimp only at h
    cases hpre : idemPre st v k with
    | error er => rw [hpre] at h; simp at h
    | ok o =>
      rw [hpre] at h
      cases o with
      | some ex =>
        dsimp only at h
        rw [Prod.mk.injEq] at h
        obtain ⟨he, hst⟩ := h
        rw [Except.ok.injEq] at he
        left
        exact ⟨v, rfl, by rw [hpre, he], hst.symm⟩
      | none =>
        dsimp only at h
        cases hacc : validateAccountsExist st (v.lines.map (fun l => l.account_code)) with
        | error er => rw [hacc] at h; simp at h
        | ok accs =>
          rw [hacc] at h
          dsimp only at h
          cases hrev : revTargetCheck st v with
          | error er => rw [hrev] at h; simp at h
          | ok u =>
            cases u
            rw [hrev] at h
            dsimp only at h
            cases hvd : validateDoubleEntryRules v with
            | error er => rw [hvd] at h; simp at h
            | ok u2 =>
              cases u2
              rw [hvd] at h
              dsimp only at h
              right
              cases k with
              | none =>
                rw [Prod.mk.injEq] at h
                obtain ⟨he, hst⟩ := h
                rw [Except.ok.injEq] at he
                exact ⟨v, accs, rfl, hpre, hacc, hrev, hvd, he.symm,
                  Or.inl ⟨rfl, hst.symm⟩⟩
              | some kk =>
                dsimp only at h
                cases hrec : svcRecordRequest (journalRepoCreate st v accs).2 kk v
                    ((journalRepoCreate st v accs).1.id) with
                | mk res st2 =>
                  rw [hrec] at h
                  cases res with
                  | error er => simp at h
                  | ok r =>
                    dsimp only at h
                    rw [Prod.mk.injEq] at h
                    obtain ⟨he, hst⟩ := h
                    rw [Except.ok.injEq] at he
                    exact ⟨v, accs, rfl, hpre, hacc, hrev, hvd, he.symm,
                      Or.inr ⟨kk, rfl, r, by rw [hrec, hst]⟩⟩
/-- C2: a keyed create with a fresh key that succeeds appends exactly one
entry, and repeating the call with the identical payload succeeds again,
returns the very same entry, and leaves the state untouched. -/
theorem create_entry_idempotent_replay
    (st : LedgerState) (P : EntryReq) (K : String)
    (e1 : JournalEntry) (st1 : LedgerState)
    (hfresh : idemFindByKey st K = none)
    (hIds : ∀ e ∈ st.entries, e.id < st.nextId)
    (h1 : createJournalEntry st P (some K) = (.ok e1, st1)) :
    createJournalEntry st1 P (some K) = (.ok e1, st1) ∧
    st1.entries = st.entries ++ [e1] := by
  rcases createJournalEntry_ok_cases h1 with
    ⟨v, hval, hpre, hst⟩ | ⟨v, accs, hval, hpre, hacc, hrev, hvd, he, hrest⟩
  · exfalso
    unfold idemPre svcValidateRequest at hpre
    dsimp only at hpre
    by_cases hk : (jsTrim K).length = 0
    · rw [if_pos hk] at hpre
      simp at hpre
    · rw [if_neg hk] at hpre
      dsimp only at hpre
      unfold idemValidateRequest at hpre
      rw [hfresh] at hpre
      simp at hpre
  · rcases hrest with ⟨hknone, _⟩ | ⟨kk, hkk, r, hrec⟩
    · exact absurd hknone (by simp)
    · have hkkK : kk = K := by
        injection hkk with h'
        exact h'.symm
      rw [hkkK] at hrec
      unfold svcRecordRequest at hrec
      by_cases hk : (jsTrim K).length = 0
      · rw [if_pos hk] at hrec
        simp at hrec
      · rw [if_neg hk] at hrec
        unfold idemRepoCreate at hrec
        have hany : ((journalRepoCreate st v accs).2.idem.any
            (fun x => x.key = K)) = false := by
          have hall := List.find?_eq_none.mp hfresh
          have hidem : (journalRepoCreate st v accs).2.idem = st.idem := rfl
          rw [hidem, List.any_eq_false]
          intro x hx
          simpa using hall x hx
        have hcond : ¬ (((journalRepoCreate st v accs).2.idem.any
            (fun x => x.key = K)) = true) := by
          rw [hany]
          simp
        rw [if_neg hcond] at hrec
        dsimp only at hrec
        rw [Prod.mk.injEq] at hrec
        obtain ⟨_, hst1⟩ := hrec
        subst hst1
        subst he
        refine ⟨?_, rfl⟩
        have hfind : idemFindByKey
            { accounts := (journalRepoCreate st v accs).2.accounts,
              entries := (journalRepoCreate st v accs).2.entries,
              idem := (journalRepoCreate st v accs).2.idem ++
                [⟨K, hashRequest v, (journalRepoCreate st v accs).1.id⟩],
              nextId := (journalRepoCreate st v accs).2.nextId,
              today := st.today } K =
            some ⟨K, hashRequest v, (journalRepoCreate st v accs).1.id⟩ := by
          unfold idemFindByKey
          dsimp only
          have hidem : (journalRepoCreate st v accs).2.idem = st.idem := rfl
          rw [hidem, find?_append_of_none _ _ _ hfresh, List.find?_cons]
          simp
        have hfid : journalFindById
            { accounts := (journalRepoCreate st v accs).2.accounts,
              entries := (journalRepoCreate st v accs).2.entries,
              idem := (journalRepoCreate st v accs).2.idem ++
                [⟨K, hashRequest v, (journalRepoCreate st v accs).1.id⟩],
              nextId := (journalRepoCreate st v accs).2.nextId,
              today := st.today }
            ((journalRepoCreate st v accs).1.id) =
            some (journalRepoCreate st v accs).1 := by
          unfold journalFindById
          dsimp only
          have hentries : (journalRepoCreate st v accs).2.entries =
              st.entries ++ [(journalRepoCreate st v accs).1] := rfl
          rw [hentries, find?_append_of_none, List.find?_cons]
          · simp
          · rw [List.find?_eq_none]
            intro x hx
            simp only [decide_eq_true_eq]
            intro hxe
            have hlt := hIds x hx
            have hnid : (journalRepoCreate st v accs).1.id = st.nextId := rfl
            omega
        have htoday : ({ (journalRepoCreate st v accs).2 with
            idem := (journalRepoCreate st v accs).2.idem ++
              [⟨K, hashRequest v, (journalRepoCreate st v accs).1.id⟩] }
              : LedgerState).today = st.today := rfl
        unfold createJournalEntry
        rw [htoday, hval]
        dsimp only
        have hpre2 : idemPre
            { accounts := (journalRepoCreate st v accs).2.accounts,
              entries := (journalRepoCreate st v accs).2.entries,
              idem := (journalRepoCreate st v accs).2.idem ++
                [⟨K, hashRequest v, (journalRepoCreate st v accs).1.id⟩],
              nextId := (journalRepoCreate st v accs).2.nextId,
              today := st.today }
            v (some K) = .ok (some (journalRepoCreate st v accs).1) := by
          unfold idemPre svcValidateRequest
          dsimp only
          rw [if_neg hk]
          dsimp only
          unfold idemValidateRequest
          rw [hfind]
          dsimp only
          rw [if_pos rfl]
          dsimp only [Bool.not_true]
          rw [if_neg (by simp)]
          rw [hfid]
        rw [hpre2]
/-- Witness for C2: posting the seed request twice under key k1. -/
theorem create_entry_idempotent_replay_witness :
    (idemFindByKey exState ("k1") = none ∧
      (∀ e ∈ exState.entries, e.id < exState.nextId) ∧
      createJournalEntry exState exReq1 (some ("k1")) = (.ok idemEntry1, idemState1)) ∧
    (createJournalEntry idemState1 exReq1 (some ("k1")) = (.ok idemEntry1, idemState1) ∧
      idemState1.entries = exState.entries ++ [idemEntry1]) :=
  ⟨⟨by decide, by decide, by decide⟩,
    create_entry_idempotent_replay exState exReq1 ("k1") idemEntry1 idemState1
      (by decide) (by decide) (by decide)⟩

/-- Shape of a successful unkeyed reversal: the posted entry swaps each
original line's debit and credit cents, preserves account codes and
positional line indices, carries the back-reference, takes the fresh id,
and is appended to the store. -/
lemma createReversalEntry_ok_shape
    {st : LedgerState} {eid : Nat} {n : String} {d : Int} {E R : JournalEntry}
    {st1 : LedgerState}
    (hE : journalFindById st eid = some E)
    (h : createReversalEntry st eid n d none = (.ok R, st1)) :
    R.reverses_entry_id = some eid ∧
    R.lines.map (fun l => l.debit_cents) = E.lines.map (fun l => l.credit_cents) ∧
    R.lines.map (fun l => l.credit_cents) = E.lines.map (fun l => l.debit_cents) ∧
    R.lines.map (fun l => l.account_code) = E.lines.map (fun l => l.account_code) ∧
    R.lines.map (fun l => l.line_index) = List.range E.lines.length ∧
    R.id = st.nextId ∧ st1.entries = st.entries ++ [R] ∧
    st1.nextId = st.nextId + 1 + E.lines.length := by
  unfold createReversalEntry at h
  rw [hE] at h
  dsimp only at h
  rcases createJournalEntry_ok_cases h with
    ⟨v, hval, hpre, hst⟩ | ⟨v, accs, hval, hpre, hacc, hrev, hvd, he, hrest⟩
  · exfalso
    unfold idemPre at hpre
    simp at hpre
  · rcases hrest with ⟨_, hst1⟩ | ⟨kk, hkk, r, hrec⟩
    swap
    · exact absurd hkk (by simp)
    have hv : normalizeReq
        ⟨d, n, E.lines.map (fun l =>
          { account_code := l.account_code,
            debit := some (fromCents l.credit_cents),
            credit := some (fromCents l.debit_cents) : LineReq }),
          some eid⟩ = v := by
      unfold validateInputJournal at hval
      by_cases hse : (schemaErrors st.today
        ⟨d, n, E.lines.map (fun l =>
          { account_code := l.account_code,
            debit := some (fromCents l.credit_cents),
            credit := some (fromCents l.debit_cents) : LineReq }),
          some eid⟩).isEmpty
      · rw [if_pos hse] at hval
        rw [Except.ok.injEq] at hval
        exact hval
      · rw [if_neg hse] at hval
        simp at hval
    subst hv
    subst he
    subst hst1
    refine ⟨rfl, ?_, ?_, ?_, ?_, rfl, rfl, ?_⟩
    · rw [repoCreate_map_debit]
      show ((E.lines.map _).map vLine).map _ = _
      rw [List.map_map, List.map_map]
      apply List.map_congr_left
      intro l _
      exact toCents_fromCents l.credit_cents
    · rw [repoCreate_map_credit]
      show ((E.lines.map _).map vLine).map _ = _
      rw [List.map_map, List.map_map]
      apply List.map_congr_left
      intro l _
      exact toCents_fromCents l.debit_cents
    · rw [repoCreate_map_code]
      show ((E.lines.map _).map vLine).map _ = _
      rw [List.map_map, List.map_map]
      rfl
    · rw [repoCreate_map_index]
      show List.range ((E.lines.map _).map vLine).length = _
      rw [List.length_map, List.length_map]
    · show st.nextId + 1 + ((E.lines.map _).map vLine).length = _
      rw [List.length_map, List.length_map]

/-- C8: reversal is the per-line swap preserving account and positional
index, posted through the normal pipeline with the back-reference; and
reversing the reversal yields a further new entry (id distinct from both
earlier entries) whose lines carry the original debit/credit cents. -/
theorem reversal_swaps_and_double_reversal_restores
    (st : LedgerState) (eid : Nat) (E R R2 : JournalEntry) (stR stR2 : LedgerState)
    (n1 n2 : String) (d1 d2 : Int)
    (hE : journalFindById st eid = some E)
    (hIds : ∀ e ∈ st.entries, e.id < st.nextId)
    (h1 : createReversalEntry st eid n1 d1 none = (.ok R, stR))
    (h2 : createReversalEntry stR R.id n2 d2 none = (.ok R2, stR2)) :
    R.reverses_entry_id = some eid ∧
    R.lines.map (fun l => l.debit_cents) = E.lines.map (fun l => l.credit_cents) ∧
    R.lines.map (fun l => l.credit_cents) = E.lines.map (fun l => l.debit_cents) ∧
    R.lines.map (fun l => l.account_code) = E.lines.map (fun l => l.account_code) ∧
    R.lines.map (fun l => l.line_index) = List.range E.lines.length ∧
    R2.reverses_entry_id = some R.id ∧
    R2.lines.map (fun l => l.debit_cents) = E.lines.map (fun l => l.debit_cents) ∧
    R2.lines.map (fun l => l.credit_cents) = E.lines.map (fun l => l.credit_cents) ∧
    R2.lines.map (fun l => l.account_code) = E.lines.map (fun l => l.account_code) ∧
    R2.id ≠ E.id ∧ R2.id ≠ R.id := by
  obtain ⟨hrev1, hdc1, hcd1, hcode1, hidx1, hid1, hent1, hnext1⟩ :=
    createReversalEntry_ok_shape hE h1
  have hfR : journalFindById stR R.id = some R := by
    unfold journalFindById
    rw [hent1, find?_append_of_none, List.find?_cons]
    · simp
    · rw [List.find?_eq_none]
      intro x hx
      simp only [decide_eq_true_eq]
      intro hxe
      have hlt := hIds x hx
      omega
  obtain ⟨hrev2, hdc2, hcd2, hcode2, hidx2, hid2, hent2, hnext2⟩ :=
    createReversalEntry_ok_shape hfR h2
  have hEmem : E ∈ st.entries := List.mem_of_find?_eq_some hE
  have hElt : E.id < st.nextId := hIds E hEmem
  refine ⟨hrev1, hdc1, hcd1, hcode1, hidx1, hrev2, ?_, ?_, ?_, ?_, ?_⟩
  · rw [hdc2, hcd1]
  · rw [hcd2, hdc1]
  · rw [hcode2, hcode1]
  · rw [hid2, hnext1]
    omega
  · rw [hid2, hnext1, hid1]
    omega

/-- Witness for C8: reversing the seed posting twice. -/
theorem reversal_swaps_and_double_reversal_restores_witness :
    (journalFindById postedState 2 = some postedEntry ∧
      (∀ e ∈ postedState.entries, e.id < postedState.nextId) ∧
      createReversalEntry postedState 2 ("reversal") 60 none = (.ok revEntry1, revState1) ∧
      createReversalEntry revState1 revEntry1.id ("reversal of reversal") 61 none =
        (.ok revEntry2, revState2)) ∧
    (revEntry1.reverses_entry_id = some 2 ∧
      revEntry1.lines.map (fun l => l.debit_cents) =
        postedEntry.lines.map (fun l => l.credit_cents) ∧
      revEntry1.lines.map (fun l => l.credit_cents) =
        postedEntry.lines.map (fun l => l.debit_cents) ∧
      revEntry1.lines.map (fun l => l.account_code) =
        postedEntry.lines.map (fun l => l.account_code) ∧
      revEntry1.lines.map (fun l => l.line_index) =
        List.range postedEntry.lines.length ∧
      revEntry2.reverses_entry_id = some revEntry1.id ∧
      revEntry2.lines.map (fun l => l.debit_cents) =
        postedEntry.lines.map (fun l => l.debit_cents) ∧
      revEntry2.lines.map (fun l => l.credit_cents) =
        postedEntry.lines.map (fun l => l.credit_cents) ∧
      revEntry2.lines.map (fun l => l.account_code) =
        postedEntry.lines.map (fun l => l.account_code) ∧
      revEntry2.id ≠ postedEntry.id ∧ revEntry2.id ≠ revEntry1.id) :=
  ⟨⟨by decide, by decide, by decide, by decide⟩,
    reversal_swaps_and_double_reversal_restores postedState 2 postedEntry
      revEntry1 revEntry2 revState1 revState2 ("reversal") ("reversal of reversal")
      60 61 (by decide) (by decide) (by decide) (by decide)⟩

/-- C10: a request with a single line, a line bearing both sides, all
lines zero, or a future date is rejected by the schema pass with a
ValidationError and the state — hence the persisted ledger — is
unchanged. -/
theorem invalid_entries_rejected_without_persistence
    (st : LedgerState) (P : EntryReq) (k : Option String)
    (h : P.lines.length = 1 ∨
      (∃ l ∈ P.lines, 0 < l.debit.getD 0 ∧ 0 < l.credit.getD 0) ∨
      (P.lines ≠ [] ∧ ∀ l ∈ P.lines, l.debit.getD 0 = 0 ∧ l.credit.getD 0 = 0) ∨
      st.today < P.date) :
    ∃ m, createJournalEntry st P k = (.error (.validation m), st) := by
  refine ⟨String.intercalate (", ") (schemaErrors st.today P),
    createJournalEntry_schema_error st P k ?_⟩
  intro heq
  unfold schemaErrors at heq
  simp only [List.append_eq_nil] at heq
  obtain ⟨⟨⟨⟨hdate, _⟩, hitems⟩, hmin⟩, _⟩ := heq
  rcases h with hone | ⟨l, hl, hb1, hb2⟩ | ⟨hne, hzero⟩ | hfut
  · rw [if_pos (by omega)] at hmin
    exact List.noConfusion hmin
  · have := List.flatMap_eq_nil_iff.mp hitems l hl
    rw [List.append_eq_nil] at this
    have hc := this.2
    unfold lineCustomErrors at hc
    rw [if_pos ⟨hb1, hb2⟩] at hc
    exact List.noConfusion hc
  · obtain ⟨l, hl⟩ := List.exists_mem_of_ne_nil P.lines hne
    have := List.flatMap_eq_nil_iff.mp hitems l hl
    rw [List.append_eq_nil] at this
    have hc := this.2
    unfold lineCustomErrors at hc
    obtain ⟨hz1, hz2⟩ := hzero l hl
    rw [if_neg (by simp [vLine, hz1, hz2]), if_pos ⟨hz1, hz2⟩] at hc
    exact List.noConfusion hc
  · unfold dateErrors at hdate
    rw [if_pos hfut] at hdate
    exact List.noConfusion hdate

/-- Witness for C10: a balanced but future-dated request. -/
theorem invalid_entries_rejected_without_persistence_witness :
    (c10Req.lines.length = 1 ∨
      (∃ l ∈ c10Req.lines, 0 < l.debit.getD 0 ∧ 0 < l.credit.getD 0) ∨
      (c10Req.lines ≠ [] ∧ ∀ l ∈ c10Req.lines,
        l.debit.getD 0 = 0 ∧ l.credit.getD 0 = 0) ∨
      exState.today < c10Req.date) ∧
    (∃ m, createJournalEntry exState c10Req none = (.error (.validation m), exState)) :=
  ⟨by decide,
    invalid_entries_rejected_without_persistence exState c10Req none (by decide)⟩
end Ledger

